import Mathlib

/-
Verification development for the webpack-uglifyes-plugin repository
(src/index.js).  The JavaScript class UglifyEsPlugin is shallowly embedded:
the mutable compilation object becomes an explicit state record, per-file
processing becomes a state-passing function, and a thrown JavaScript
exception becomes an explicit error value carried next to the state that
was already mutated when the throw happened (JavaScript mutations made
before a throw persist).  External collaborators (the uglify-es minifier,
the webpack matchObject helper) are parameters of the embedding.  Names of
unbound JavaScript identifiers that the source reads (a ReferenceError at
run time) are modelled by the refError value naming the identifier.
-/

set_option autoImplicit false

namespace UglifyEsPlugin

/-
Minimal model of the JavaScript RegExp fragment this development needs:
literal characters, backslash escapes, the dot wildcard, the star
quantifier, the caret and dollar anchors, and top-level alternation.
A compiled regex is a value with a test function, mirroring how the
plugin only ever calls regex.test(string).
-/

inductive RAtom where
  | ch (c : Char)
  | dot
deriving DecidableEq

structure RPiece where
  atom : RAtom
  star : Bool
deriving DecidableEq

structure RAlt where
  anchored : Bool
  pieces : List RPiece
  endAnchor : Bool
deriving DecidableEq

def parsePieces : List Char → List RPiece
  | [] => []
  | '\\' :: c :: '*' :: rest => ⟨.ch c, true⟩ :: parsePieces rest
  | '\\' :: c :: rest => ⟨.ch c, false⟩ :: parsePieces rest
  | '.' :: '*' :: rest => ⟨.dot, true⟩ :: parsePieces rest
  | '.' :: rest => ⟨.dot, false⟩ :: parsePieces rest
  | c :: '*' :: rest => ⟨.ch c, true⟩ :: parsePieces rest
  | c :: rest => ⟨.ch c, false⟩ :: parsePieces rest

def parseAlt (cs : List Char) : RAlt :=
  let anch := match cs with
    | '^' :: _ => true
    | _ => false
  let cs1 := match cs with
    | '^' :: rest => rest
    | _ => cs
  let endA := match cs1.reverse with
    | '$' :: '\\' :: _ => false
    | '$' :: _ => true
    | _ => false
  let body := match cs1.reverse with
    | '$' :: '\\' :: _ => cs1
    | '$' :: rest => rest.reverse
    | _ => cs1
  ⟨anch, parsePieces body, endA⟩

def splitAltsAux : List Char → List Char → List (List Char)
  | acc, [] => [acc.reverse]
  | acc, '\\' :: c :: rest => splitAltsAux (c :: '\\' :: acc) rest
  | acc, '|' :: rest => acc.reverse :: splitAltsAux [] rest
  | acc, c :: rest => splitAltsAux (c :: acc) rest

def matchAtom : RAtom → Char → Bool
  | .ch c, x => c == x
  | .dot, _ => true

/-
Backtracking matcher.  Every recursive call strictly decreases
ps.length + s.length, so that sum bounds the recursion depth; the fuel
argument makes the recursion structural (and hence kernel-reducible).
-/
def matchPF : Nat → List RPiece → List Char → Bool → Bool
  | 0, _, _, _ => false
  | fuel + 1, ps, s, endA =>
    match ps, s with
    | [], t => !endA || t.isEmpty
    | ⟨_, false⟩ :: _, [] => false
    | ⟨a, false⟩ :: ps2, c :: rest => matchAtom a c && matchPF fuel ps2 rest endA
    | ⟨_, true⟩ :: ps2, [] => matchPF fuel ps2 [] endA
    | ⟨a, true⟩ :: ps2, c :: rest =>
        matchPF fuel ps2 (c :: rest) endA ||
          (matchAtom a c && matchPF fuel (⟨a, true⟩ :: ps2) rest endA)

def matchP (ps : List RPiece) (s : List Char) (endA : Bool) : Bool :=
  matchPF (ps.length + s.length + 1) ps s endA

def searchP (ps : List RPiece) (endA : Bool) : List Char → Bool
  | [] => matchP ps [] endA
  | c :: rest => matchP ps (c :: rest) endA || searchP ps endA rest

def altTest (alt : RAlt) (s : List Char) : Bool :=
  if alt.anchored then matchP alt.pieces s alt.endAnchor
  else searchP alt.pieces alt.endAnchor s

structure JSRegExp where
  test : String → Bool

def jsNewRegExp (pat : String) : JSRegExp :=
  let alts := (splitAltsAux [] pat.toList).map parseAlt
  ⟨fun v => alts.any (fun alt => altTest alt v.toList)⟩

/-
Comments as the minifier hands them to the comments callback: a type tag
(comment2 for block comments) and the comment text.
-/

structure AstNode where
  id : Nat
deriving DecidableEq

structure JSComment where
  type : String
  value : String
deriving DecidableEq

/-
A comment-predicate specification, in the five shapes the plugin accepts:
boolean, function, string, or regex-like object (anything with a test
method).  The literal string "all" is special-cased by normalization.
-/
inductive CommentSpec where
  | bool (b : Bool)
  | fn (f : AstNode → JSComment → Bool)
  | str (s : String)
  | regex (test : String → Bool)

/-
src/index.js lines 120-143: the forEach body that coerces each of
condition.preserve and condition.extract to a callable.  A boolean
becomes a constant predicate, a function is kept, the string "all"
becomes the constant-true predicate, any other string is compiled with
new RegExp and tested against comment.value, and the default branch
treats the value as regex-like and tests comment.value.
-/
def normalizeCondition : CommentSpec → AstNode → JSComment → Bool
  | .bool b => fun _ _ => b
  | .fn f => f
  | .str s =>
      if s == "all" then fun _ _ => true
      else
        let regex := jsNewRegExp s
        fun _ comment => regex.test comment.value
  | .regex t => fun _ comment => t comment.value

/-
src/index.js lines 149-151: a comment whose type is comment2 keeps its
block delimiters, any other comment keeps the line-comment delimiter.
-/
def formatComment (comment : JSComment) : String :=
  if comment.type == "comment2" then "/*" ++ comment.value ++ "*/"
  else "//" ++ comment.value

/-
src/index.js lines 147-156: the redefined output.comments visitor.  Per
comment it first evaluates the extract condition, pushing the formatted
comment onto the extractedComments array when it holds, and returns the
preserve decision.  The mutable array is threaded explicitly.
-/
def commentsVisitorStep (extract preserve : AstNode → JSComment → Bool)
    (extractedComments : List String) (astNode : AstNode) (comment : JSComment) :
    List String × Bool :=
  let extractedComments :=
    if extract astNode comment then extractedComments ++ [formatComment comment]
    else extractedComments
  (extractedComments, preserve astNode comment)

/-
The serialization traversal: the minifier invokes the visitor once per
encountered comment, in source order.  Returns the final extracted sink
and the per-comment preserve decisions, in order.
-/
def runComments (extract preserve : AstNode → JSComment → Bool)
    (extractedComments : List String) :
    List (AstNode × JSComment) → List String × List Bool
  | [] => (extractedComments, [])
  | c :: cs =>
      let step := commentsVisitorStep extract preserve extractedComments c.1 c.2
      let rest := runComments extract preserve step.1 cs
      (rest.1, step.2 :: rest.2)

/-
JavaScript error values.  line, col and msg model optional own fields of
the thrown object (the uglify-es failure shape); message and stack model
the fields every Error value carries.  A ReferenceError raised by reading
an unbound identifier, and a TypeError raised by dereferencing undefined,
are built by the two helpers.
-/

structure JSErr where
  line : Option Nat
  col : Option Nat
  message : String
  msg : Option String
  stack : String
deriving DecidableEq

def refError (n : String) : JSErr :=
  ⟨none, none, n ++ " is not defined", none,
    "ReferenceError: " ++ n ++ " is not defined"⟩

def typeError (m : String) : JSErr :=
  ⟨none, none, m, none, "TypeError: " ++ m⟩

/- JavaScript truthiness of an optional number (0 and undefined are falsy). -/
def natTruthy : Option Nat → Bool
  | some n => !(n == 0)
  | none => false

/- JavaScript truthiness of an optional string (empty and undefined are falsy). -/
def strOptTruthy : Option String → Bool
  | some s => !(s == "")
  | none => false

/- String interpolation of an optional number (undefined prints as undefined). -/
def jsOptNatStr : Option Nat → String
  | some n => toString n
  | none => "undefined"

/-
Source maps and the position-lookup structure.  An input source map is
opaque except for the lookup the source-map library derives from it; the
SourceMapConsumer wraps that lookup.  originalPositionFor receives the
generated line and the (possibly undefined) generated column and returns
an object whose source field is null when no mapping exists.
-/

structure OrigPos where
  source : Option String
  line : Option Nat
  column : Option Nat

structure SMap where
  posFor : Nat → Option Nat → OrigPos

structure SMConsumer where
  originalPositionFor : Nat → Option Nat → OrigPos

/-
Asset values: host assets handed in by the build system (text, optional
map, and whether they expose the combined sourceAndMap accessor), plus
the two webpack-sources shapes the plugin creates, RawSource and
ConcatSource.  In this program a ConcatSource only ever aggregates plain
children, so its children are plain sources.
-/

inductive PlainSource where
  | host (src : String) (map : Option SMap) (hasSourceAndMap : Bool)
  | raw (code : String)

inductive AssetVal where
  | plain (p : PlainSource)
  | concat (parts : List PlainSource)

def PlainSource.jsSource : PlainSource → String
  | .host s _ _ => s
  | .raw c => c

def PlainSource.jsMap : PlainSource → Option SMap
  | .host _ m _ => m
  | .raw _ => none

def AssetVal.jsSource : AssetVal → String
  | .plain p => p.jsSource
  | .concat ps => String.join (ps.map PlainSource.jsSource)

def AssetVal.jsMap : AssetVal → Option SMap
  | .plain p => p.jsMap
  | .concat _ => none

/- RawSource and ConcatSource always expose sourceAndMap; host assets may not. -/
def AssetVal.hasSourceAndMapMethod : AssetVal → Bool
  | .plain (.host _ _ h) => h
  | _ => true

/-
An entry of compilation.assets: the stored source object together with
its __UglifyJsPlugin own property (the idempotence marker the plugin
attaches in place, src/index.js line 95).
-/
structure Asset where
  val : AssetVal
  marker : Option AssetVal

/-
The shared compilation-result object: the asset map (an insertion-ordered
object, modelled as an association list), the error and warning
collections, and the additional chunk assets read by _compile.
-/
structure Compilation where
  assets : List (String × Asset)
  errors : List String
  warnings : List String
  additionalChunkAssets : List String

def lookupAsset : List (String × Asset) → String → Option Asset
  | [], _ => none
  | (k, a) :: rest, f => if k == f then some a else lookupAsset rest f

def setAsset : List (String × Asset) → String → Asset → List (String × Asset)
  | [], f, a => [(f, a)]
  | (k, b) :: rest, f, a =>
      if k == f then (f, a) :: rest else (k, b) :: setAsset rest f a

/-
Instrumentation counters (not program state): how often the external
collaborators were invoked.  They exist so that theorems can state that
a code path performs no minifier call, no map extraction and no
SourceMapConsumer construction.
-/
structure Trace where
  minifyCalls : Nat
  sourceAndMapCalls : Nat
  mapCalls : Nat
  consumerNews : Nat
deriving DecidableEq

structure St where
  comp : Compilation
  trace : Trace

/-
Configuration, after the constructor merge (src/index.js lines 8-17).
extractComments accepts a string, a regex, an object with condition,
filename and banner fields, or a boolean; absent means disabled.
outputComments models options.output.comments when the user configured an
output object (Object.assign at lines 63-66 would overwrite the comments
key); it is none when no override is configured.
-/

inductive FilenameSpec where
  | str (s : String)
  | fn (f : String → String)

inductive BannerSpec where
  | str (s : String)
  | fn (f : String → String)
  | bool (b : Bool)

structure ExtractObj where
  condition : Option CommentSpec
  filename : Option FilenameSpec
  banner : Option BannerSpec

inductive ExtractSpec where
  | str (s : String)
  | regex (t : String → Bool)
  | obj (o : ExtractObj)
  | bool (b : Bool)

structure MinifyOpts where
  mangle : Bool
  toplevel : Bool
  sourceMap : Bool
deriving DecidableEq

/-
The external uglify-es minifier, a black box per the specification: code
in, transformed code out, or a structured failure.
-/
def MinifyFn := String → MinifyOpts → Except JSErr String

structure Cfg where
  warningFilter : String → Bool
  sourceMap : Bool
  mangle : Bool
  toplevel : Bool
  comments : CommentSpec
  beautify : Option Bool
  extractComments : Option ExtractSpec
  outputComments : Option CommentSpec

/- JavaScript truthiness of the extractComments option (line 80). -/
def extractTruthy : Option ExtractSpec → Bool
  | none => false
  | some (.bool b) => b
  | some (.str s) => !(s == "")
  | some _ => true

/-
new SourceMapConsumer(m), line 178.  The external source-map library
rejects a missing map object; a present map yields the lookup wrapper.
The consumerNews counter records that the constructor was invoked.
-/
def smcNew (tr : Trace) (m : Option SMap) : Trace × Except JSErr SMConsumer :=
  let tr := { tr with consumerNews := tr.consumerNews + 1 }
  match m with
  | none => (tr, .error (typeError "version is a required argument"))
  | some sm => (tr, .ok ⟨sm.posFor⟩)

/-
_processSourceMap, src/index.js lines 161-180.  Note the control flow of
the source: the branch guarded by !this._options.sourceMap (lines
165-167) only assigns input, which lines 169-176 then overwrite
unconditionally, so it is a dead store; map extraction and the
SourceMapConsumer construction at line 178 are not guarded.  The
constructed consumer is bound to a local and discarded; only input is
returned (line 179).
-/
def processSourceMap (cfg : Cfg) (tr : Trace) (asset : AssetVal) :
    Trace × Except JSErr String :=
  let _deadInput : Option String :=
    if !cfg.sourceMap then some asset.jsSource else none
  let step :=
    if asset.hasSourceAndMapMethod then
      ({ tr with sourceAndMapCalls := tr.sourceAndMapCalls + 1 },
        asset.jsSource, asset.jsMap)
    else
      ({ tr with mapCalls := tr.mapCalls + 1 },
        asset.jsSource, asset.jsMap)
  match smcNew step.1 step.2.2 with
  | (tr2, .error e) => (tr2, .error e)
  | (tr2, .ok _) => (tr2, .ok step.2.1)

/-
_processExtractComments, src/index.js lines 102-117.  Every branch of
the condition-resolution cascade reads the unbound identifier options
(line 108 when extractComments is a string or a regex, line 109 in the
hasOwnProperty test otherwise), so the function throws a ReferenceError
before reaching the normalization loop at lines 120-143, which is
embedded separately as normalizeCondition, and the visitor at lines
147-156, embedded as commentsVisitorStep.
-/
def processExtractComments (cfg : Cfg) (outputComments : CommentSpec) :
    Except JSErr (List String) :=
  let _preserve := outputComments
  match cfg.extractComments with
  | some (.str _) => .error (refError "options")
  | some (.regex _) => .error (refError "options")
  | _ => .error (refError "options")

/- Property accesses this._options.extractComments.filename and .banner. -/
def extractFilenameProp : Option ExtractSpec → Option FilenameSpec
  | some (.obj o) => o.filename
  | _ => none

def extractBannerProp : Option ExtractSpec → Option BannerSpec
  | some (.obj o) => o.banner
  | _ => none

/-
_writeExtractedComments, src/index.js lines 200-231.  The identifier
file is not in scope in this method: the default-filename template at
line 201 and the filename-function call at line 203 both throw a
ReferenceError.  Only an explicit non-empty filename string avoids that.
The sidecar accumulation at lines 206-219 then runs; afterwards, unless
banner is exactly false or a configured banner function returns the
empty string, line 228 reads the unbound identifier outputSource and
throws, after the sidecar was already written.  Mutations made before a
throw persist, so the function returns the updated compilation next to
the optional error.
-/
def writeExtractedComments (cfg : Cfg) (comp : Compilation)
    (extractedComments : List String) : Compilation × Option JSErr :=
  if cfg.extractComments.isNone then
    (comp, some (typeError "Cannot read property filename of undefined"))
  else
    match extractFilenameProp cfg.extractComments with
    | none => (comp, some (refError "file"))
    | some (.fn _) => (comp, some (refError "file"))
    | some (.str fname) =>
      if fname == "" then (comp, some (refError "file"))
      else
        let commentsFile := fname
        let batch := String.intercalate "\n\n" extractedComments ++ "\n"
        let comp1 :=
          match lookupAsset comp.assets commentsFile with
          | some existing =>
            match existing.val with
            | .concat parts =>
                let appended : Asset :=
                  ⟨.concat (parts ++ [.raw "\n", .raw batch]), existing.marker⟩
                { comp with assets := setAsset comp.assets commentsFile appended }
            | .plain p =>
                let wrapped : Asset := ⟨.concat [p, .raw "\n", .raw batch], none⟩
                { comp with assets := setAsset comp.assets commentsFile wrapped }
          | none =>
              let fresh : Asset := ⟨.plain (.raw batch), none⟩
              { comp with assets := setAsset comp.assets commentsFile fresh }
        match extractBannerProp cfg.extractComments with
        | some (.bool false) => (comp1, none)
        | some (.bool true) => (comp1, some (refError "outputSource"))
        | some (.str _) => (comp1, some (refError "outputSource"))
        | some (.fn bf) =>
            if bf commentsFile == "" then (comp1, none)
            else (comp1, some (refError "outputSource"))
        | none => (comp1, some (refError "outputSource"))

/-
_processExeption, src/index.js lines 182-198.  The fourth parameter is
never passed by the only call site (line 46), so sourceMap is undefined
there and the original-position lookup is skipped.  When a consumer is
supplied and the lookup yields a truthy source, line 189 reads the
unbound identifier requestShortener and throws before pushing anything.
-/
def processExeption (comp : Compilation) (err : JSErr) (file : String)
    (sourceMap : Option SMConsumer) : Except JSErr Compilation :=
  if natTruthy err.line then
    match sourceMap with
    | some sm =>
      let original := sm.originalPositionFor (err.line.getD 0) err.col
      if strOptTruthy original.source then
        .error (refError "requestShortener")
      else
        .ok { comp with errors := comp.errors ++
          [file ++ " from UglifyJs\n" ++ err.message ++ " [" ++ file ++ ":" ++
            jsOptNatStr err.line ++ "," ++ jsOptNatStr err.col ++ "]"] }
    | none =>
        .ok { comp with errors := comp.errors ++
          [file ++ " from UglifyJs\n" ++ err.message ++ " [" ++ file ++ ":" ++
            jsOptNatStr err.line ++ "," ++ jsOptNatStr err.col ++ "]"] }
  else if strOptTruthy err.msg then
    .ok { comp with errors := comp.errors ++
      [file ++ " from UglifyJs\n" ++ err.msg.getD ""] }
  else
    .ok { comp with errors := comp.errors ++
      [file ++ " from UglifyJs\n" ++ err.stack] }

/-
Result of one _processFile call: the state after all mutations performed
up to normal return or throw, the thrown error if any, and (as a ghost
observation for reasoning about the in-place marker mutation of line 95)
the final value of the local asset binding, none when the line 56 lookup
yielded undefined.
-/
structure ProcOut where
  st : St
  err : Option JSErr
  assetAfter : Option Asset

/-
_processFile, src/index.js lines 54-100, in source order: the local
warnings array (line 55), the cache lookup on the asset marker (lines
56-60), the output options object (lines 62-66), _processSourceMap
(line 69), uglify.minify with the mangle, toplevel and sourceMap options
(lines 72-76), comment extraction behind the extractComments guard
(lines 79-82), the RawSource wrapper (line 89), the sidecar write behind
the non-empty guard (lines 92-94), installing the result and attaching
the marker (line 95), and the warning emission branch (lines 97-99).
-/
def processFile (cfg : Cfg) (mf : MinifyFn) (s : St) (file : String) : ProcOut :=
  let warnings : List String := []
  match lookupAsset s.comp.assets file with
  | none =>
      ⟨s, some (typeError "Cannot read property __UglifyJsPlugin of undefined"),
        none⟩
  | some asset =>
    match asset.marker with
    | some m =>
        ⟨{ s with comp := { s.comp with
            assets := setAsset s.comp.assets file ⟨m, none⟩ } }, none, some asset⟩
    | none =>
      let outputComments := cfg.outputComments.getD cfg.comments
      match processSourceMap cfg s.trace asset.val with
      | (tr, .error e) => ⟨{ s with trace := tr }, some e, some asset⟩
      | (tr, .ok input) =>
        let tr := { tr with minifyCalls := tr.minifyCalls + 1 }
        match mf input ⟨cfg.mangle, cfg.toplevel, cfg.sourceMap⟩ with
        | .error e => ⟨{ s with trace := tr }, some e, some asset⟩
        | .ok compressedCode =>
          match (if extractTruthy cfg.extractComments
                 then processExtractComments cfg outputComments
                 else .ok []) with
          | .error e => ⟨{ s with trace := tr }, some e, some asset⟩
          | .ok extractedComments =>
            let outputSource : AssetVal := .plain (.raw compressedCode)
            match (if extractedComments.length > 0
                   then writeExtractedComments cfg s.comp extractedComments
                   else (s.comp, none)) with
            | (comp, some e) => ⟨⟨comp, tr⟩, some e, some asset⟩
            | (comp, none) =>
              let assetMarked : Asset := { asset with marker := some outputSource }
              let comp := { comp with
                assets := setAsset comp.assets file ⟨outputSource, none⟩ }
              let comp :=
                if warnings.length > 0
                then { comp with warnings := comp.warnings ++
                        [file ++ " from UglifyJs\n " ++
                          String.intercalate "\n" warnings] }
                else comp
              ⟨⟨comp, tr⟩, none, some assetMarked⟩

/-
One iteration of the forEach body in _compile, src/index.js lines 41-50:
try _processFile, catch into _processExeption with only three arguments
(line 46), finally restore the uglify warn_function global (which
nothing in this code modifies, so the save and restore have no
observable effect in the model).  A throw escaping the catch handler
itself would propagate, hence the Except result.
-/
def stepFile (cfg : Cfg) (mf : MinifyFn) (s : St) (file : String) :
    Except JSErr St :=
  let po := processFile cfg mf s file
  match po.err with
  | none => .ok po.st
  | some e =>
      match processExeption po.st.comp e file none with
      | .ok comp => .ok ⟨comp, po.st.trace⟩
      | .error e2 => .error e2

def compileFiles (cfg : Cfg) (mf : MinifyFn) : St → List String → Except JSErr St
  | s, [] => .ok s
  | s, f :: rest =>
      match stepFile cfg mf s f with
      | .ok s1 => compileFiles cfg mf s1 rest
      | .error e => .error e

/-
_compile, src/index.js lines 33-52: the candidate list is the additional
chunk assets followed by every chunk file in order (lines 34-37), the
selection filter delegates to the external ModuleFilenameHelpers
matchObject helper, modelled by the matchFile parameter (line 40), and
each surviving file is processed in order.  Reaching the end of the fold
corresponds to the callback() call at line 51.
-/
def compile (cfg : Cfg) (mf : MinifyFn) (matchFile : String → Bool)
    (chunks : List (List String)) (s : St) : Except JSErr St :=
  let files := s.comp.additionalChunkAssets ++ chunks.flatten
  compileFiles cfg mf s (files.filter matchFile)

/-
The catch-path error text, src/index.js lines 183-197 as exercised by the
only call site (sourceMap absent): the generated-position message when
the failure carries a line, the msg text when it carries msg, and the
stack text otherwise.
-/
def catchMessage (err : JSErr) (file : String) : String :=
  if natTruthy err.line then
    file ++ " from UglifyJs\n" ++ err.message ++ " [" ++ file ++ ":" ++
      jsOptNatStr err.line ++ "," ++ jsOptNatStr err.col ++ "]"
  else if strOptTruthy err.msg then
    file ++ " from UglifyJs\n" ++ err.msg.getD ""
  else
    file ++ " from UglifyJs\n" ++ err.stack

/-
Concrete fixtures used by the witnesses: the constructor defaults of
src/index.js lines 8-17 (warningFilter accepts all, sourceMap and mangle
enabled, toplevel disabled, the default comments regex), a minifier
stand-in, a trivial source map, and a one-asset compilation.
-/

def cfg0 : Cfg :=
  ⟨fun _ => true, true, true, false,
    .regex (jsNewRegExp "^\\**!|@preserve|@license").test, none, none, none⟩

def mf0 : MinifyFn := fun s _ => .ok ("min(" ++ s ++ ")")

def map0 : SMap := ⟨fun _ _ => ⟨none, none, none⟩⟩

def asset0 : Asset := ⟨.plain (.host "code" (some map0) true), none⟩

def comp0 : Compilation := ⟨[], [], [], []⟩

def trace0 : Trace := ⟨0, 0, 0, 0⟩

def st0 : St := ⟨⟨[("a.js", asset0)], [], [], []⟩, trace0⟩

/- Configurations with specific extractComments shapes, for the witnesses. -/

def cfgCondOnly : Cfg :=
  { cfg0 with extractComments := some (.obj ⟨some (.str "all"), none, none⟩) }

def esFnFilename : ExtractSpec :=
  .obj ⟨none, some (.fn (fun f => f ++ ".LICENSE")), none⟩

def cfgFnFilename : Cfg := { cfg0 with extractComments := some esFnFilename }

def cfgStrExtract : Cfg :=
  { cfg0 with extractComments := some (.str "@license") }

def cfgRegexExtract : Cfg :=
  { cfg0 with extractComments := some (.regex (jsNewRegExp "^!").test) }

def cfgTrueExtract : Cfg :=
  { cfg0 with extractComments := some (.bool true) }

def esNamedSidecar : ExtractSpec := .obj ⟨none, some (.str "x.LICENSE"), none⟩

def cfgNamedSidecar : Cfg := { cfg0 with extractComments := some esNamedSidecar }

def cfgNoSourceMap : Cfg := { cfg0 with sourceMap := false }

/- Helper lemmas shared by the claim theorems. -/

theorem lookupAsset_setAsset_self (l : List (String × Asset)) (f : String)
    (a : Asset) : lookupAsset (setAsset l f a) f = some a := by
  induction l with
  | nil => simp [setAsset, lookupAsset]
  | cons kv rest ih =>
      obtain ⟨k, b⟩ := kv
      by_cases h : k == f
      · simp [setAsset, lookupAsset, h]
      · simp [setAsset, lookupAsset, h, ih]

theorem processExtractComments_error (cfg : Cfg) (oc : CommentSpec) :
    processExtractComments cfg oc = .error (refError "options") := by
  unfold processExtractComments
  rcases h : cfg.extractComments with _ | es
  · rfl
  · cases es <;> rfl

theorem processExeption_none (comp : Compilation) (err : JSErr) (file : String) :
    processExeption comp err file none =
      .ok { comp with errors := comp.errors ++ [catchMessage err file] } := by
  unfold processExeption catchMessage
  by_cases h1 : natTruthy err.line
  · simp [h1]
  · by_cases h2 : strOptTruthy err.msg <;> simp [h1, h2]

theorem stepFile_isOk (cfg : Cfg) (mf : MinifyFn) (s : St) (file : String) :
    ∃ s2, stepFile cfg mf s file = .ok s2 := by
  cases h : (processFile cfg mf s file).err with
  | none => exact ⟨(processFile cfg mf s file).st, by simp [stepFile, h]⟩
  | some e =>
      refine ⟨⟨{ (processFile cfg mf s file).st.comp with
        errors := (processFile cfg mf s file).st.comp.errors ++
          [catchMessage e file] }, (processFile cfg mf s file).st.trace⟩, ?_⟩
      simp [stepFile, h, processExeption_none]

theorem compileFiles_isOk (cfg : Cfg) (mf : MinifyFn) (files : List String) :
    ∀ s : St, ∃ s2, compileFiles cfg mf s files = .ok s2 := by
  induction files with
  | nil => intro s; exact ⟨s, rfl⟩
  | cons f rest ih =>
      intro s
      obtain ⟨s1, h1⟩ := stepFile_isOk cfg mf s f
      obtain ⟨s2, h2⟩ := ih s1
      exact ⟨s2, by simp [compileFiles, h1, h2]⟩

theorem runComments_fst (extract preserve : AstNode → JSComment → Bool)
    (cs : List (AstNode × JSComment)) : ∀ sink : List String,
    (runComments extract preserve sink cs).1 =
      sink ++ (cs.filter (fun x => extract x.1 x.2)).map
        (fun x => formatComment x.2) := by
  induction cs with
  | nil => intro sink; simp [runComments]
  | cons c cs ih =>
      intro sink
      cases h : extract c.1 c.2 <;>
        simp [runComments, commentsVisitorStep, h, ih]

theorem runComments_snd (extract preserve : AstNode → JSComment → Bool)
    (cs : List (AstNode × JSComment)) : ∀ sink : List String,
    (runComments extract preserve sink cs).2 =
      cs.map (fun x => preserve x.1 x.2) := by
  induction cs with
  | nil => intro sink; simp [runComments]
  | cons c cs ih => intro sink; simp [runComments, commentsVisitorStep, ih]

/--
C6: predicate normalization maps each of the five spec shapes to the
specified callable: a boolean becomes the constant predicate of that
value, a function is returned as is, the literal string "all" becomes the
constant-true predicate, any other string is compiled as a regular
expression tested against comment.value, and a regex-like value is tested
the same way; in particular normalize(true) yields true on anything,
normalize("@license") accepts a comment valued "@license foo", and a
regex-like value built from the pattern caret-bang accepts "!keep".
-/
theorem claim6_normalization (b : Bool) (f : AstNode → JSComment → Bool)
    (s : String) (t : String → Bool) (a : AstNode) (c : JSComment)
    (hs : s ≠ "all") :
    normalizeCondition (.bool b) a c = b ∧
    normalizeCondition (.fn f) = f ∧
    normalizeCondition (.str "all") a c = true ∧
    normalizeCondition (.str s) a c = (jsNewRegExp s).test c.value ∧
    normalizeCondition (.regex t) a c = t c.value ∧
    normalizeCondition (.bool true) a c = true ∧
    normalizeCondition (.str "@license") ⟨0⟩ ⟨"comment1", "@license foo"⟩ = true ∧
    normalizeCondition (.regex (jsNewRegExp "^!").test) ⟨0⟩
      ⟨"comment1", "!keep"⟩ = true := by
  have h : (s == "all") = false := by simpa using hs
  exact ⟨rfl, rfl, rfl, by simp [normalizeCondition, h], rfl, rfl,
    by decide, by decide⟩

/-- Witness for C6 at the concrete spec "@license". -/
theorem claim6_normalization_witness :
    normalizeCondition (.bool true) ⟨0⟩ ⟨"comment1", "x"⟩ = true ∧
    normalizeCondition (.fn (fun _ _ => false)) = (fun _ _ => false) ∧
    normalizeCondition (.str "all") ⟨0⟩ ⟨"comment1", "x"⟩ = true ∧
    normalizeCondition (.str "@license") ⟨0⟩ ⟨"comment1", "x"⟩ =
      (jsNewRegExp "@license").test "x" ∧
    normalizeCondition (.regex (fun _ => false)) ⟨0⟩ ⟨"comment1", "x"⟩ =
      false ∧
    normalizeCondition (.bool true) ⟨0⟩ ⟨"comment1", "x"⟩ = true ∧
    normalizeCondition (.str "@license") ⟨0⟩ ⟨"comment1", "@license foo"⟩ = true ∧
    normalizeCondition (.regex (jsNewRegExp "^!").test) ⟨0⟩
      ⟨"comment1", "!keep"⟩ = true :=
  claim6_normalization true (fun _ _ => false) "@license" (fun _ => false)
    ⟨0⟩ ⟨"comment1", "x"⟩ (by decide)

/--
C7: the classification visitor evaluates the extract predicate and, when
it holds, appends the comment formatted with its original delimiter style
to the extracted sink, in traversal order, append-only without reordering
or deduplication; its return value is always exactly the preserve
predicate result, per comment and over a whole traversal.
-/
theorem claim7_visitor (extract preserve : AstNode → JSComment → Bool)
    (sink : List String) (a : AstNode) (c : JSComment)
    (cs : List (AstNode × JSComment)) :
    (commentsVisitorStep extract preserve sink a c).2 = preserve a c ∧
    (commentsVisitorStep extract preserve sink a c).1 =
      (if extract a c then sink ++ [formatComment c] else sink) ∧
    (runComments extract preserve sink cs).1 =
      sink ++ (cs.filter (fun x => extract x.1 x.2)).map
        (fun x => formatComment x.2) ∧
    (runComments extract preserve sink cs).2 =
      cs.map (fun x => preserve x.1 x.2) :=
  ⟨rfl, rfl, runComments_fst extract preserve cs sink,
    runComments_snd extract preserve cs sink⟩

/--
C2: refuted on the code.  When the extractComments option carries no
explicit filename string, _writeExtractedComments evaluates the template
with the identifier file, and when it carries a filename function it
calls that function with file; file is not in scope in that method
(src/index.js lines 200-204), so both shapes throw a ReferenceError and
no sidecar asset is created at all, instead of the claimed fallback to
the sourceFile.LICENSE name or to the function result.
-/
theorem claim2_sidecar_name_bug :
    writeExtractedComments cfgCondOnly comp0 ["//@license MIT"] =
      (comp0, some (refError "file")) ∧
    writeExtractedComments cfgFnFilename comp0 ["//@license MIT"] =
      (comp0, some (refError "file")) :=
  ⟨rfl, rfl⟩

/--
C4: refuted on the code.  When the original-position lookup yields a
known source, line 189 reads the unbound identifier requestShortener and
throws a ReferenceError before any error is recorded, so the claimed
two-bracket message is never produced; when no mapping is found the
generated-position-only message of the claim is produced as stated.
-/
theorem claim4_diagnostic_bug :
    processExeption comp0 ⟨some 3, some 5, "Unexpected token", none, "stk"⟩
      "app.js" (some ⟨fun _ _ => ⟨some "original.js", some 10, some 2⟩⟩) =
      .error (refError "requestShortener") ∧
    processExeption comp0 ⟨some 3, some 5, "Unexpected token", none, "stk"⟩
      "app.js" (some ⟨fun _ _ => ⟨none, none, none⟩⟩) =
      .ok ⟨[], ["app.js from UglifyJs\nUnexpected token [app.js:3,5]"], [], []⟩ ∧
    processExeption comp0 ⟨none, none, "m", some "bad input", "stk"⟩
      "app.js" none =
      .ok ⟨[], ["app.js from UglifyJs\nbad input"], [], []⟩ ∧
    processExeption comp0 ⟨none, none, "m", none, "stacktrace"⟩ "app.js" none =
      .ok ⟨[], ["app.js from UglifyJs\nstacktrace"], [], []⟩ :=
  ⟨rfl, rfl, rfl, rfl⟩

/--
C5: refuted on the code.  Every branch of the condition-resolution
cascade in _processExtractComments reads the unbound identifier options
(src/index.js lines 108, 109 and 112 write options.extractComments where
this._options.extractComments was meant), so the function throws a
ReferenceError for every truthy extractComments shape instead of
resolving the preserve and extract pair.
-/
theorem claim5_condition_resolution_bug :
    processExtractComments cfgStrExtract (.bool true) =
      .error (refError "options") ∧
    processExtractComments cfgRegexExtract (.bool true) =
      .error (refError "options") ∧
    processExtractComments cfgCondOnly (.bool true) =
      .error (refError "options") ∧
    processExtractComments cfgTrueExtract (.bool true) =
      .error (refError "options") :=
  ⟨rfl, rfl, rfl, rfl⟩

/--
C8: refuted on the code.  With the sourceMap option disabled,
_processSourceMap still invokes the combined sourceAndMap accessor (the
branch at lines 165-167 only performs a dead store of input) and still
constructs a SourceMapConsumer at line 178: on a host asset exposing
sourceAndMap and carrying a map, the accessor counter and the consumer
counter both reach 1, and only the text is returned.
-/
theorem claim8_sourcemap_skip_bug :
    (processSourceMap cfgNoSourceMap trace0
      (.plain (.host "code" (some map0) true))).1 = ⟨0, 1, 0, 1⟩ ∧
    (processSourceMap cfgNoSourceMap trace0
      (.plain (.host "code" (some map0) true))).2 = .ok "code" :=
  ⟨rfl, rfl⟩

/--
C9: refuted on the code.  With an explicit sidecar filename and the
banner not disabled, the banner text resolves to the non-empty default,
and line 228 then reads the unbound identifier outputSource and throws a
ReferenceError: the sidecar asset has already been written, but no banner
is ever prepended to the transformed asset (whose template would even
carry a stray double-quote after the newline).
-/
theorem claim9_banner_bug :
    writeExtractedComments cfgNamedSidecar comp0 ["//c"] =
      (⟨[("x.LICENSE", ⟨.plain (.raw "//c\n"), none⟩)], [], [], []⟩,
        some (refError "outputSource")) :=
  rfl

theorem writeExtractedComments_warnings (cfg : Cfg) (comp : Compilation)
    (ec : List String) :
    (writeExtractedComments cfg comp ec).1.warnings = comp.warnings := by
  simp only [writeExtractedComments]
  repeat' split
  all_goals rfl

theorem processFile_warnings (cfg : Cfg) (mf : MinifyFn) (s : St)
    (file : String) :
    (processFile cfg mf s file).st.comp.warnings = s.comp.warnings := by
  cases h1 : lookupAsset s.comp.assets file with
  | none => simp [processFile, h1]
  | some asset =>
    cases h2 : asset.marker with
    | some m => simp [processFile, h1, h2]
    | none =>
      rcases h3 : processSourceMap cfg s.trace asset.val with ⟨tr, r⟩
      cases r with
      | error e => simp [processFile, h1, h2, h3]
      | ok input =>
        cases h4 : mf input ⟨cfg.mangle, cfg.toplevel, cfg.sourceMap⟩ with
        | error e => simp [processFile, h1, h2, h3, h4]
        | ok code =>
          cases h5 : extractTruthy cfg.extractComments with
          | false => simp [processFile, h1, h2, h3, h4, h5]
          | true =>
              simp [processFile, h1, h2, h3, h4, h5,
                processExtractComments_error]

/-
On every throwing path of _processFile the compilation object is
untouched: the only assignments to it (the sidecar write of line 93 and
the install of line 95) are out of reach, because comment extraction
either is skipped or throws before producing a non-empty batch.
-/
theorem processFile_err_frame (cfg : Cfg) (mf : MinifyFn) (s : St)
    (file : String) (e : JSErr)
    (he : (processFile cfg mf s file).err = some e) :
    (processFile cfg mf s file).st.comp = s.comp := by
  cases h1 : lookupAsset s.comp.assets file with
  | none => simp [processFile, h1]
  | some asset =>
    cases h2 : asset.marker with
    | some m => simp [processFile, h1, h2] at he
    | none =>
      rcases h3 : processSourceMap cfg s.trace asset.val with ⟨tr, r⟩
      cases r with
      | error e2 => simp [processFile, h1, h2, h3]
      | ok input =>
        cases h4 : mf input ⟨cfg.mangle, cfg.toplevel, cfg.sourceMap⟩ with
        | error e2 => simp [processFile, h1, h2, h3, h4]
        | ok code =>
          cases h5 : extractTruthy cfg.extractComments with
          | false => simp [processFile, h1, h2, h3, h4, h5] at he
          | true =>
              simp [processFile, h1, h2, h3, h4, h5,
                processExtractComments_error]

theorem compileFiles_warningFilter (cfg : Cfg) (g : String → Bool)
    (mf : MinifyFn) (files : List String) : ∀ s : St,
    compileFiles { cfg with warningFilter := g } mf s files =
      compileFiles cfg mf s files := by
  induction files with
  | nil => intro s; rfl
  | cons f rest ih =>
      intro s
      simp only [compileFiles]
      rw [show stepFile { cfg with warningFilter := g } mf s f =
        stepFile cfg mf s f from rfl]
      cases stepFile cfg mf s f
      · rfl
      · simp [ih]

/--
C10: the local warnings array created at the start of _processFile is
never appended to before the final length check, so the warning-emission
branch is unreachable: per-file processing leaves the compilation
warnings collection unchanged, and the configured warningFilter
predicate is never invoked by any operation of the pipeline — the result
of _processFile and of the whole _compile run is independent of the
warningFilter configuration.
-/
theorem claim10_warningFilter_frame (cfg : Cfg) (mf : MinifyFn) (s : St)
    (file : String) (g : String → Bool) (matchFile : String → Bool)
    (chunks : List (List String)) :
    processFile { cfg with warningFilter := g } mf s file =
      processFile cfg mf s file ∧
    compile { cfg with warningFilter := g } mf matchFile chunks s =
      compile cfg mf matchFile chunks s ∧
    (processFile cfg mf s file).st.comp.warnings = s.comp.warnings :=
  ⟨rfl, by unfold compile; exact compileFiles_warningFilter cfg g mf _ s,
    processFile_warnings cfg mf s file⟩

/--
C3: every per-file failure is caught at the file-processing boundary and
converted into exactly one entry appended to the compilation error
collection; the compilation object (in particular the failing file
asset) is untouched by the failing call, the catch handler returns
normally so the iteration continues with the remaining candidate files,
and the top-level _compile entry point always returns normally.
-/
theorem claim3_failure_policy (cfg : Cfg) (mf : MinifyFn) (s : St)
    (file : String) (e : JSErr)
    (he : (processFile cfg mf s file).err = some e) :
    (processFile cfg mf s file).st.comp = s.comp ∧
    stepFile cfg mf s file =
      .ok ⟨{ s.comp with errors := s.comp.errors ++ [catchMessage e file] },
        (processFile cfg mf s file).st.trace⟩ ∧
    ∀ (matchFile : String → Bool) (chunks : List (List String)),
      ∃ s2, compile cfg mf matchFile chunks s = .ok s2 := by
  have hcomp := processFile_err_frame cfg mf s file e he
  refine ⟨hcomp, ?_, ?_⟩
  · simp [stepFile, he, processExeption_none, hcomp]
  · intro matchFile chunks
    unfold compile
    exact compileFiles_isOk cfg mf _ s

/-- Witness for C3: a candidate file with no asset entry fails and is
converted into one recorded error, with the compilation untouched. -/
theorem claim3_failure_policy_witness :
    (processFile cfg0 mf0 ⟨comp0, trace0⟩ "a.js").err =
      some (typeError "Cannot read property __UglifyJsPlugin of undefined") ∧
    ((processFile cfg0 mf0 ⟨comp0, trace0⟩ "a.js").st.comp = comp0 ∧
      stepFile cfg0 mf0 ⟨comp0, trace0⟩ "a.js" =
        .ok ⟨{ comp0 with errors := comp0.errors ++
          [catchMessage (typeError
            "Cannot read property __UglifyJsPlugin of undefined") "a.js"] },
          (processFile cfg0 mf0 ⟨comp0, trace0⟩ "a.js").st.trace⟩ ∧
      ∀ (matchFile : String → Bool) (chunks : List (List String)),
        ∃ s2, compile cfg0 mf0 matchFile chunks ⟨comp0, trace0⟩ = .ok s2) :=
  ⟨rfl, claim3_failure_policy cfg0 mf0 ⟨comp0, trace0⟩ "a.js"
    (typeError "Cannot read property __UglifyJsPlugin of undefined") rfl⟩

/--
C1: after a first successful transformation of an unmarked asset object,
the prior output is attached to that asset object as the marker and
installed in the asset map; any later _processFile call that looks up
the same (now marked) asset object performs no minifier invocation, no
map extraction and no diagnostic work (the instrumentation trace is
unchanged), and installs the prior result verbatim — byte-identical to
the first output.
-/
theorem claim1_idempotence (cfg : Cfg) (mf : MinifyFn) (s : St) (file : String)
    (a : Asset) (ha : lookupAsset s.comp.assets file = some a)
    (hm : a.marker = none)
    (hok : (processFile cfg mf s file).err = none) :
    ∃ B : AssetVal,
      (processFile cfg mf s file).assetAfter = some ⟨a.val, some B⟩ ∧
      lookupAsset (processFile cfg mf s file).st.comp.assets file =
        some ⟨B, none⟩ ∧
      ∀ s2 : St, lookupAsset s2.comp.assets file = some ⟨a.val, some B⟩ →
        processFile cfg mf s2 file =
          ⟨⟨{ s2.comp with assets := setAsset s2.comp.assets file ⟨B, none⟩ },
            s2.trace⟩, none, some ⟨a.val, some B⟩⟩ := by
  rcases h3 : processSourceMap cfg s.trace a.val with ⟨tr, r⟩
  cases r with
  | error e => exfalso; simp [processFile, ha, hm, h3] at hok
  | ok input =>
    cases h4 : mf input ⟨cfg.mangle, cfg.toplevel, cfg.sourceMap⟩ with
    | error e => exfalso; simp [processFile, ha, hm, h3, h4] at hok
    | ok code =>
      cases h5 : extractTruthy cfg.extractComments with
      | true =>
          exfalso
          simp [processFile, ha, hm, h3, h4, h5,
            processExtractComments_error] at hok
      | false =>
          refine ⟨.plain (.raw code), ?_, ?_, ?_⟩
          · simp [processFile, ha, hm, h3, h4, h5]
          · simp [processFile, ha, hm, h3, h4, h5, lookupAsset_setAsset_self]
          · intro s2 h2
            simp [processFile, h2]

/-- Witness for C1: a concrete first run on an unmarked one-asset state. -/
theorem claim1_idempotence_witness :
    lookupAsset st0.comp.assets "a.js" = some asset0 ∧
    asset0.marker = none ∧
    (processFile cfg0 mf0 st0 "a.js").err = none ∧
    (∃ B : AssetVal,
      (processFile cfg0 mf0 st0 "a.js").assetAfter = some ⟨asset0.val, some B⟩ ∧
      lookupAsset (processFile cfg0 mf0 st0 "a.js").st.comp.assets "a.js" =
        some ⟨B, none⟩ ∧
      ∀ s2 : St, lookupAsset s2.comp.assets "a.js" = some ⟨asset0.val, some B⟩ →
        processFile cfg0 mf0 s2 "a.js" =
          ⟨⟨{ s2.comp with assets := setAsset s2.comp.assets "a.js" ⟨B, none⟩ },
            s2.trace⟩, none, some ⟨asset0.val, some B⟩⟩) :=
  ⟨rfl, rfl, rfl, claim1_idempotence cfg0 mf0 st0 "a.js" asset0 rfl rfl rfl⟩

end UglifyEsPlugin
